import Mathlib

/-!
Verification of the Field Matching & Compliance Inference Engine:
shallow embedding of `src/utils/normalizer.py`, `src/utils/resilience.py`,
`src/modes/matcher.py` and `src/modes/validator.py`, followed by theorems
settling the frozen claims about them.

Python floats are modelled by `ℚ` (all the constants involved are exact
decimals), Python sets of strings by `Finset String` or `List String`
(membership-equivalent), Python dicts by insertion-ordered association
lists with in-place update, and fallible code by `Option`.
-/

/-! ## Normalizer (`src/utils/normalizer.py`) -/

/-- `STOPWORDS_ES` from `src/config.py`. -/
def STOPWORDS_ES : List String :=
  ["el", "la", "los", "las", "un", "una", "unos", "unas",
   "de", "del", "al", "y", "o", "en", "para", "por",
   "con", "sin", "sobre", "entre", "a"]

/-- Model of Python `str.lower` on the character repertoire this pipeline
sees: ASCII plus the accented Spanish letters. -/
def lowerChar (c : Char) : Char :=
  if c = 'Á' then 'á' else if c = 'É' then 'é' else if c = 'Í' then 'í'
  else if c = 'Ó' then 'ó' else if c = 'Ú' then 'ú' else if c = 'Ü' then 'ü'
  else if c = 'Ñ' then 'ñ' else c.toLower

/-- Model of the `unidecode` library call on the character repertoire this
pipeline sees after lowercasing: accented Spanish letters transliterate to
their base letter, the degree sign to "deg", ASCII is unchanged. -/
def unidecodeChar (c : Char) : List Char :=
  if c = 'á' then ['a'] else if c = 'é' then ['e'] else if c = 'í' then ['i']
  else if c = 'ó' then ['o'] else if c = 'ú' then ['u'] else if c = 'ü' then ['u']
  else if c = 'ñ' then ['n'] else if c = '°' then ['d', 'e', 'g'] else [c]

/-- The character class kept by `re.sub(r'[^a-z0-9\s\-]', ' ', text)`. -/
def keepChar (c : Char) : Bool :=
  ('a' ≤ c && c ≤ 'z') || ('0' ≤ c && c ≤ '9') || c.isWhitespace || c = '-'

/-- `re.sub(r'\s+', ' ', text)`: collapse every whitespace run to one space.
The flag records whether the previous character was whitespace. -/
def squeezeWs (prevWs : Bool) : List Char → List Char
  | [] => []
  | c :: cs =>
    if c.isWhitespace then
      if prevWs then squeezeWs true cs else ' ' :: squeezeWs true cs
    else c :: squeezeWs false cs

/-- Python `str.strip` (on text whose only whitespace is spaces/tabs/newlines). -/
def trimChars (cs : List Char) : List Char :=
  ((cs.dropWhile Char.isWhitespace).reverse.dropWhile Char.isWhitespace).reverse

/-- Helper for `splitOnSpace`: `cur` is the current chunk, reversed. -/
def splitOnSpaceAux (cur : List Char) : List Char → List String
  | [] => if cur = [] then [] else [String.mk cur.reverse]
  | c :: rest =>
    if c = ' ' then
      if cur = [] then splitOnSpaceAux [] rest
      else String.mk cur.reverse :: splitOnSpaceAux [] rest
    else splitOnSpaceAux (c :: cur) rest

/-- Python `str.split()` with no separator: maximal nonempty chunks between
spaces (after `squeezeWs` the only whitespace left is a single space). -/
def splitOnSpace (cs : List Char) : List String :=
  splitOnSpaceAux [] cs

/-- `normalize_text` from `src/utils/normalizer.py`. -/
def normalize_text (text : String) (remove_stopwords : Bool) : String :=
  if text = "" then ""
  else
    let cs := (text.toList.map lowerChar).flatMap unidecodeChar
    let cs := cs.map (fun c => if keepChar c then c else ' ')
    let cs := squeezeWs false cs
    if remove_stopwords then
      String.intercalate " " ((splitOnSpace cs).filter (fun w => w ∉ STOPWORDS_ES))
    else
      String.mk (trimChars cs)

/-- The `expansions` table of `get_canonical_key`, in source order. -/
def expansionsList : List (String × String) :=
  [("rut", "rol unico tributario"), ("run", "rol unico nacional"),
   ("n°", "numero"), ("nro", "numero"), ("tel", "telefono"),
   ("cel", "celular"), ("dir", "direccion"), ("dpto", "departamento"),
   ("ap", "apellido"), ("nom", "nombre"), ("fec", "fecha"),
   ("nac", "nacimiento"), ("pat", "paterno"), ("mat", "materno")]

/-- A token of the normalized text: a maximal run of regex word characters,
or a single separator character.  Used to model `\b`-anchored substitution. -/
inductive NToken where
  | word (s : String)
  | sep (s : String)
deriving DecidableEq, Repr

/-- Regex `\w` (the normalized text only contains `[a-z0-9 -]`). -/
def isWordChar (c : Char) : Bool :=
  ('a' ≤ c && c ≤ 'z') || ('0' ≤ c && c ≤ '9') || ('A' ≤ c && c ≤ 'Z') || c = '_'

/-- Helper for `tokenizeChars`: `cur` is the current word run, reversed. -/
def tokenizeAux (cur : List Char) : List Char → List NToken
  | [] => if cur = [] then [] else [NToken.word (String.mk cur.reverse)]
  | c :: rest =>
    if isWordChar c then tokenizeAux (c :: cur) rest
    else
      (if cur = [] then [] else [NToken.word (String.mk cur.reverse)])
        ++ NToken.sep (String.mk [c]) :: tokenizeAux [] rest

/-- Split a character list into word tokens and separator tokens. -/
def tokenizeChars (cs : List Char) : List NToken :=
  tokenizeAux [] cs

/-- Concatenate tokens back into a string. -/
def renderTokens (ts : List NToken) : String :=
  ts.foldl (fun s t => s ++ (match t with | NToken.word w => w | NToken.sep w => w)) ""

/-- One `re.sub(r'\b' + abbr + r'\b', expanded, normalized)` step: every word
token equal to the abbreviation is replaced by the (re-tokenized) expansion. -/
def expandAbbr (ts : List NToken) (abbr expanded : String) : List NToken :=
  ts.flatMap (fun t =>
    match t with
    | NToken.word w => if w = abbr then tokenizeChars expanded.toList else [t]
    | NToken.sep s => [NToken.sep s])

/-- `get_canonical_key` from `src/utils/normalizer.py`. -/
def get_canonical_key (text : String) : String :=
  renderTokens (expansionsList.foldl (fun ts p => expandAbbr ts p.1 p.2)
    (tokenizeChars (normalize_text text true).toList))

/-- `extract_keywords` from `src/utils/normalizer.py`. -/
def extract_keywords (text : String) : Finset String :=
  (((splitOnSpace (normalize_text text true).toList).filter
    (fun w => 3 ≤ w.length))).toFinset

/-- `calculate_similarity` from `src/utils/normalizer.py`.  Note the order of
the checks in the source: the empty-keyword-set check comes BEFORE the
canonical-key short-circuit. -/
def calculate_similarity (text1 text2 : String) : ℚ :=
  let keywords1 := extract_keywords text1
  let keywords2 := extract_keywords text2
  if keywords1 = ∅ ∨ keywords2 = ∅ then 0
  else
    let inter := keywords1 ∩ keywords2
    let union := keywords1 ∪ keywords2
    if union = ∅ then 0
    else
      let jaccard : ℚ := (inter.card : ℚ) / (union.card : ℚ)
      if get_canonical_key text1 = get_canonical_key text2 then 1 else jaccard

/-! ## Claim C1: `calculate_similarity` -/

theorem extract_keywords_union_ne_empty {a b : String}
    (ha : extract_keywords a ≠ ∅) :
    extract_keywords a ∪ extract_keywords b ≠ ∅ := by
  intro h
  exact ha (Finset.union_eq_empty.mp h).1

/-- Claim C1, counterexample to the claim as stated: `"ab"` is non-empty and
`canonicalKey("ab") == canonicalKey("ab")`, yet `calculate_similarity` returns
0, not 1.0: in the source the empty-keyword-set check short-circuits BEFORE
the canonical-key comparison, and `"ab"` (length < 3) yields no keywords. -/
theorem C1_similarity_counterexample :
    get_canonical_key "ab" = get_canonical_key "ab" ∧ "ab" ≠ "" ∧
    calculate_similarity "ab" "ab" = 0 := by
  refine ⟨rfl, by decide, ?_⟩
  have h : extract_keywords "ab" = ∅ := by decide
  unfold calculate_similarity
  rw [if_pos (Or.inl h)]

/-- Claim C1 (amended): `calculate_similarity` returns 0 whenever either
keyword set is empty (even if the canonical keys coincide); otherwise it
returns exactly 1 when the canonical keys are equal and the Jaccard
coefficient of the keyword sets when they differ; the result always lies in
[0,1]; and `similarity(a,a) = 1` whenever `a` has at least one keyword. -/
theorem C1_similarity_spec : ∀ a b : String,
    (0 ≤ calculate_similarity a b ∧ calculate_similarity a b ≤ 1)
    ∧ ((extract_keywords a = ∅ ∨ extract_keywords b = ∅) →
        calculate_similarity a b = 0)
    ∧ (extract_keywords a ≠ ∅ → extract_keywords b ≠ ∅ →
        get_canonical_key a = get_canonical_key b →
        calculate_similarity a b = 1)
    ∧ (extract_keywords a ≠ ∅ → extract_keywords b ≠ ∅ →
        get_canonical_key a ≠ get_canonical_key b →
        calculate_similarity a b =
          ((extract_keywords a ∩ extract_keywords b).card : ℚ) /
          ((extract_keywords a ∪ extract_keywords b).card : ℚ))
    ∧ (extract_keywords a ≠ ∅ → calculate_similarity a a = 1) := by
  intro a b
  have hjac : ∀ x y : String, 0 ≤ ((extract_keywords x ∩ extract_keywords y).card : ℚ) /
      ((extract_keywords x ∪ extract_keywords y).card : ℚ) ∧
      ((extract_keywords x ∩ extract_keywords y).card : ℚ) /
      ((extract_keywords x ∪ extract_keywords y).card : ℚ) ≤ 1 := by
    intro x y
    constructor
    · exact div_nonneg (Nat.cast_nonneg _) (Nat.cast_nonneg _)
    · rcases Nat.eq_zero_or_pos (extract_keywords x ∪ extract_keywords y).card with h | h
      · rw [h]
        simp
      · rw [div_le_one (by exact_mod_cast h)]
        exact_mod_cast Finset.card_le_card Finset.inter_subset_union
  refine ⟨?_, ?_, ?_, ?_, ?_⟩
  · unfold calculate_similarity
    by_cases h : extract_keywords a = ∅ ∨ extract_keywords b = ∅
    · rw [if_pos h]
      norm_num
    · rw [if_neg h]
      by_cases hu : extract_keywords a ∪ extract_keywords b = ∅
      · rw [if_pos hu]
        norm_num
      · rw [if_neg hu]
        by_cases hk : get_canonical_key a = get_canonical_key b
        · rw [if_pos hk]
          norm_num
        · rw [if_neg hk]
          exact hjac a b
  · intro h
    unfold calculate_similarity
    rw [if_pos h]
  · intro ha hb hk
    unfold calculate_similarity
    rw [if_neg (by simp [ha, hb]), if_neg (extract_keywords_union_ne_empty ha),
      if_pos hk]
  · intro ha hb hk
    unfold calculate_similarity
    rw [if_neg (by simp [ha, hb]), if_neg (extract_keywords_union_ne_empty ha),
      if_neg hk]
  · intro ha
    unfold calculate_similarity
    rw [if_neg (by simp [ha]), if_neg (extract_keywords_union_ne_empty ha),
      if_pos rfl]

/-- Witness for `C1_similarity_spec` at concrete inputs. -/
theorem C1_similarity_spec_witness :
    calculate_similarity "nombre" "nombre" = 1 ∧
    calculate_similarity "el" "nombre" = 0 := by
  constructor
  · exact (C1_similarity_spec "nombre" "nombre").2.2.2.2 (by decide)
  · exact (C1_similarity_spec "el" "nombre").2.1 (Or.inl (by decide))

/-! ## Resilience primitives (`src/utils/resilience.py`) -/

/-- `RetryStrategy` configuration from `src/utils/resilience.py`. -/
structure RetryStrategy where
  max_retries : Nat
  base_delay : ℚ
  max_delay : ℚ
  exponential_base : ℚ
deriving DecidableEq, Repr

/-- `RetryStrategy.get_delay`: `min(base_delay * exponential_base**attempt, max_delay)`. -/
def RetryStrategy.get_delay (s : RetryStrategy) (attempt : Nat) : ℚ :=
  min (s.base_delay * s.exponential_base ^ attempt) s.max_delay

/-- The attempt loop of `RetryStrategy.execute`.  The awaited async callable
is modelled as `op : Nat → Except ε α`, giving the outcome of the n-th
invocation (0-indexed `attempt`).  Returns the final value together with the
number of invocations actually performed.  `fuel` is the number of attempts
still allowed (`max_retries + 1 - attempt` in the source loop). -/
def executeFrom (op : Nat → Except ε α) (attempt : Nat) : Nat → Option α × Nat
  | 0 => (none, 0)
  | fuel + 1 =>
    match op attempt with
    | Except.ok a => (some a, 1)
    | Except.error _ =>
      let r := executeFrom op (attempt + 1) fuel
      (r.1, r.2 + 1)

/-- `RetryStrategy.execute`: runs `op` up to `max_retries + 1` times and
returns the first success, or `none` once every attempt has failed (the
source logs the last exception and returns `None`). -/
def RetryStrategy.execute (s : RetryStrategy) (op : Nat → Except ε α) : Option α :=
  (executeFrom op 0 (s.max_retries + 1)).1

/-- Number of times `RetryStrategy.execute` invokes the operation. -/
def RetryStrategy.invocations (s : RetryStrategy) (op : Nat → Except ε α) : Nat :=
  (executeFrom op 0 (s.max_retries + 1)).2

theorem executeFrom_all_error {ε α : Type} (op : Nat → Except ε α)
    (attempt fuel : Nat) (h : ∀ n, ∃ e, op n = Except.error e) :
    executeFrom op attempt fuel = (none, fuel) := by
  induction fuel generalizing attempt with
  | zero => rfl
  | succ fuel ih =>
    obtain ⟨e, he⟩ := h attempt
    simp only [executeFrom, he, ih (attempt + 1)]

/-- Claim C3, counterexample to the claim as stated: two operations whose
(final) failures have different underlying causes produce the very same
exhaustion outcome `none`, so the outcome returned to the caller cannot
carry the last failure's cause (the source merely logs it and returns
`None`). -/
theorem C3_exhaustion_counterexample :
    RetryStrategy.execute ⟨3, 1, 30, 2⟩
        (fun _ => (Except.error "connection reset" : Except String Nat)) =
      RetryStrategy.execute ⟨3, 1, 30, 2⟩
        (fun _ => (Except.error "dns failure" : Except String Nat)) ∧
    RetryStrategy.execute ⟨3, 1, 30, 2⟩
        (fun _ => (Except.error "connection reset" : Except String Nat)) = none ∧
    (Except.error "connection reset" : Except String Nat) ≠
      Except.error "dns failure" := by
  refine ⟨?_, ?_, by simp⟩ <;>
    simp [RetryStrategy.execute, executeFrom]

/-- Claim C3 (amended): when every attempt of the retried operation fails,
`RetryStrategy.execute` signals exhaustion to the caller as the typed
outcome `none` — distinct from a raised fault (the model is a total
function into `Option`) — but the last failure's underlying cause is only
logged, not carried in the returned outcome; a success is returned as
`some`. -/
theorem C3_exhaustion_spec {ε α : Type} (s : RetryStrategy)
    (op : Nat → Except ε α) :
    ((∀ n, ∃ e, op n = Except.error e) → s.execute op = none) ∧
    (∀ a, op 0 = Except.ok a → s.execute op = some a) := by
  constructor
  · intro h
    unfold RetryStrategy.execute
    rw [executeFrom_all_error op 0 (s.max_retries + 1) h]
  · intro a ha
    unfold RetryStrategy.execute
    simp only [executeFrom, ha]

/-- Witness for `C3_exhaustion_spec` at concrete inputs. -/
theorem C3_exhaustion_spec_witness :
    RetryStrategy.execute ⟨2, 1, 30, 2⟩
      (fun _ => (Except.error "timeout" : Except String Nat)) = none ∧
    RetryStrategy.execute ⟨2, 1, 30, 2⟩
      (fun _ => (Except.ok 7 : Except String Nat)) = some 7 := by
  constructor
  · exact (C3_exhaustion_spec ⟨2, 1, 30, 2⟩ _).1 (fun _ => ⟨"timeout", rfl⟩)
  · exact (C3_exhaustion_spec ⟨2, 1, 30, 2⟩ _).2 7 rfl

/-- Claim C7: with `max_retries = 3`, an operation failing on its first two
attempts and succeeding on the third is invoked exactly 3 times and its
success value is returned; an always-failing operation is invoked exactly
`max_retries + 1` times; an operation succeeding at once is invoked exactly
once. -/
theorem C7_retry_attempt_counts {ε α : Type} (s : RetryStrategy)
    (op : Nat → Except ε α) (a : α) :
    (s.max_retries = 3 → (∃ e, op 0 = Except.error e) →
      (∃ e, op 1 = Except.error e) → op 2 = Except.ok a →
      s.execute op = some a ∧ s.invocations op = 3) ∧
    ((∀ n, ∃ e, op n = Except.error e) →
      s.execute op = none ∧ s.invocations op = s.max_retries + 1) ∧
    (op 0 = Except.ok a → s.execute op = some a ∧ s.invocations op = 1) := by
  refine ⟨?_, ?_, ?_⟩
  · rintro h3 ⟨e0, h0⟩ ⟨e1, h1⟩ h2
    unfold RetryStrategy.execute RetryStrategy.invocations
    rw [h3]
    simp [executeFrom, h0, h1, h2]
  · intro h
    unfold RetryStrategy.execute RetryStrategy.invocations
    rw [executeFrom_all_error op 0 (s.max_retries + 1) h]
    exact ⟨rfl, rfl⟩
  · intro h0
    unfold RetryStrategy.execute RetryStrategy.invocations
    simp [executeFrom, h0]

/-- Witness for `C7_retry_attempt_counts` at concrete inputs. -/
theorem C7_retry_attempt_counts_witness :
    RetryStrategy.execute ⟨3, 1, 30, 2⟩
        (fun n => if n < 2 then (Except.error "flaky" : Except String Nat)
          else Except.ok 42) = some 42 ∧
    RetryStrategy.invocations ⟨3, 1, 30, 2⟩
        (fun n => if n < 2 then (Except.error "flaky" : Except String Nat)
          else Except.ok 42) = 3 := by
  exact (C7_retry_attempt_counts ⟨3, 1, 30, 2⟩ _ 42).1 rfl
    ⟨"flaky", rfl⟩ ⟨"flaky", rfl⟩ rfl

/-! ## Association lists: the model of Python `dict` assignment/lookup -/

/-- Python `d[k] = v`: update in place if the key exists (keeping its
insertion position), otherwise append at the end. -/
def updateAssoc {beta : Type} (k : String) (v : beta) :
    List (String × beta) → List (String × beta)
  | [] => [(k, v)]
  | p :: rest => if p.1 = k then (k, v) :: rest else p :: updateAssoc k v rest

/-- Python `d[k]` / `k in d`. -/
def lookupAssoc {beta : Type} (h : List (String × beta)) (k : String) :
    Option beta :=
  (h.find? (fun p => p.1 = k)).map Prod.snd

theorem lookupAssoc_cons_self {beta : Type} (p : String × beta)
    (rest : List (String × beta)) {k : String} (hp : p.1 = k) :
    lookupAssoc (p :: rest) k = some p.2 := by
  simp [lookupAssoc, List.find?, hp]

theorem lookupAssoc_cons_ne {beta : Type} (p : String × beta)
    (rest : List (String × beta)) {k : String} (hp : ¬ p.1 = k) :
    lookupAssoc (p :: rest) k = lookupAssoc rest k := by
  simp [lookupAssoc, List.find?, hp]

theorem lookupAssoc_updateAssoc_self {beta : Type} (h : List (String × beta))
    (k : String) (v : beta) : lookupAssoc (updateAssoc k v h) k = some v := by
  induction h with
  | nil => exact lookupAssoc_cons_self (k, v) [] rfl
  | cons p rest ih =>
    by_cases hp : p.1 = k
    · simp only [updateAssoc, hp, if_true, ite_true]
      exact lookupAssoc_cons_self (k, v) rest rfl
    · simp only [updateAssoc, hp, if_false, ite_false]
      rw [lookupAssoc_cons_ne p _ hp]
      exact ih

theorem lookupAssoc_updateAssoc_ne {beta : Type} (h : List (String × beta))
    {k k' : String} (v : beta) (hne : k' ≠ k) :
    lookupAssoc (updateAssoc k v h) k' = lookupAssoc h k' := by
  induction h with
  | nil =>
    show lookupAssoc [(k, v)] k' = lookupAssoc [] k'
    rw [lookupAssoc_cons_ne (k, v) [] (fun hh => hne hh.symm)]
  | cons p rest ih =>
    by_cases hp : p.1 = k
    · simp only [updateAssoc, hp, if_true, ite_true]
      rw [lookupAssoc_cons_ne (k, v) rest (fun hh => hne hh.symm),
        lookupAssoc_cons_ne p rest (fun hh => hne (hh.symm.trans hp))]
    · simp only [updateAssoc, hp, if_false, ite_false]
      by_cases hp' : p.1 = k'
      · rw [lookupAssoc_cons_self p _ hp', lookupAssoc_cons_self p _ hp']
      · rw [lookupAssoc_cons_ne p _ hp', lookupAssoc_cons_ne p _ hp']
        exact ih

theorem updateAssoc_updateAssoc {beta : Type} (h : List (String × beta))
    (k : String) (v w : beta) :
    updateAssoc k v (updateAssoc k w h) = updateAssoc k v h := by
  induction h with
  | nil => simp [updateAssoc]
  | cons p rest ih =>
    by_cases hp : p.1 = k
    · simp [updateAssoc, hp]
    · simp [updateAssoc, hp, ih]

/-! ## `LoopDetector` (`src/utils/resilience.py`) -/

/-- `LoopDetector`: per-key timestamped history with a TTL window.
`datetime` instants are modelled as `Int` and `state_ttl` as the TTL's
length in the same unit. -/
structure LoopDetector where
  max_same_state : Nat
  state_ttl : Int
  state_history : List (String × List Int)
deriving DecidableEq, Repr

/-- The history list for a key (empty when the key is absent, as the source
initializes missing keys with `[]`). -/
def historyOf (d : LoopDetector) (key : String) : List Int :=
  (lookupAssoc d.state_history key).getD []

/-- `LoopDetector.record_state`: prune entries older than the TTL
(`now - ts < state_ttl` survives), append `now`, and report a loop when the
surviving count reaches `max_same_state`. -/
def LoopDetector.record_state (d : LoopDetector) (state_key : String)
    (now : Int) : Bool × LoopDetector :=
  let hist := historyOf d state_key
  let pruned := hist.filter (fun ts => now - ts < d.state_ttl)
  let newHist := pruned ++ [now]
  (decide (d.max_same_state ≤ newHist.length),
   { d with state_history := updateAssoc state_key newHist d.state_history })

/-- Run a sequence of `record_state` calls on one key at the given instants,
collecting the returned booleans. -/
def runStates (d : LoopDetector) (key : String) : List Int → List Bool
  | [] => []
  | t :: ts =>
    let r := d.record_state key t
    r.1 :: runStates r.2 key ts

/-- A detector equal to `d` except that `stale` is prepended to `key`'s
history. -/
def addStaleEntry (d : LoopDetector) (key : String) (stale : Int) :
    LoopDetector :=
  { d with state_history := updateAssoc key (stale :: historyOf d key) d.state_history }

/-- The expected boolean answers: the i-th call (`start + i + 1`-th overall
surviving entry) reports a loop exactly when the count reaches
`max_same_state`. -/
def expectedFlags (maxS start : Nat) : Nat → List Bool
  | 0 => []
  | n + 1 => decide (maxS ≤ start + 1) :: expectedFlags maxS (start + 1) n

theorem historyOf_record_state (d : LoopDetector) (key : String) (now : Int) :
    historyOf (d.record_state key now).2 key =
      (historyOf d key).filter (fun ts => now - ts < d.state_ttl) ++ [now] := by
  simp [LoopDetector.record_state, historyOf, lookupAssoc_updateAssoc_self]

theorem runStates_window (key : String) (ts : List Int) :
    ∀ (d : LoopDetector) (acc : List Int),
    historyOf d key = acc →
    (∀ t ∈ ts, ∀ a ∈ acc, t - a < d.state_ttl) →
    ts.Pairwise (fun a b => b - a < d.state_ttl) →
    runStates d key ts = expectedFlags d.max_same_state acc.length ts.length := by
  induction ts with
  | nil => intro d acc _ _ _; rfl
  | cons t rest ih =>
    intro d acc hacc halive hpw
    have hfilter : acc.filter (fun a => decide (t - a < d.state_ttl)) = acc :=
      List.filter_eq_self.mpr (fun a ha => by
        simpa using halive t (List.mem_cons_self t rest) a ha)
    have hhead : (d.record_state key t).1 =
        decide (d.max_same_state ≤ acc.length + 1) := by
      simp [LoopDetector.record_state, hacc, hfilter]
    have hd' : historyOf (d.record_state key t).2 key = acc ++ [t] := by
      rw [historyOf_record_state, hacc]
      simpa using hfilter
    have httl : (d.record_state key t).2.state_ttl = d.state_ttl := rfl
    have hmax : (d.record_state key t).2.max_same_state = d.max_same_state := rfl
    have htail := ih (d.record_state key t).2 (acc ++ [t]) hd'
      (by
        intro t' ht' a ha
        rw [httl]
        rcases List.mem_append.mp ha with h | h
        · exact halive t' (List.mem_cons_of_mem t ht') a h
        · have : a = t := by simpa using h
          subst this
          exact (List.pairwise_cons.mp hpw).1 t' ht')
      (by
        rw [httl]
        exact (List.pairwise_cons.mp hpw).2)
    simp only [runStates, hhead, htail, hmax, expectedFlags, List.length_cons,
      List.length_append, List.length_cons, List.length_nil]

theorem expectedFlags_spec (n : Nat) (h : 0 < n) : ∀ start : Nat,
    expectedFlags (start + n) start n = List.replicate (n - 1) false ++ [true] := by
  induction n with
  | zero => omega
  | succ n ih =>
    intro start
    rcases Nat.eq_zero_or_pos n with hn | hn
    · subst hn
      simp [expectedFlags]
    · have h1 : ¬ (start + (n + 1) ≤ start + 1) := by omega
      have h2 : start + (n + 1) = (start + 1) + n := by omega
      simp only [expectedFlags, h2, ih hn (start + 1)]
      have h3 : n + 1 - 1 = (n - 1) + 1 := by omega
      simp [h3, List.replicate_succ, h1, Nat.pos_iff_ne_zero.mp hn]

theorem expectedFlags_all_false : ∀ (n maxS start : Nat),
    start + n < maxS → expectedFlags maxS start n = List.replicate n false := by
  intro n
  induction n with
  | zero => intro maxS start _; rfl
  | succ n ih =>
    intro maxS start h
    have h1 : ¬ (maxS ≤ start + 1) := by omega
    simp only [expectedFlags, h1, decide_eq_true_eq, List.replicate_succ]
    rw [ih maxS (start + 1) (by omega)]
    simp [h1]

/-- Claim C8: starting from a fresh detector, any sequence of fewer than
`max_same_state` calls to `record_state(key)`, all within the TTL window
(each pair of instants closer than the TTL), returns `false` at every call;
a sequence of exactly `max_same_state` such calls returns `false` for every
call before the last and `true` exactly at the `max_same_state`-th; moreover
entries older than the TTL are pruned before each check: a stale entry in
the history has no effect on the call's outcome or resulting state. -/
theorem C8_loop_detector_spec (maxS : Nat) (ttl : Int) (key : String)
    (ts : List Int) :
    (ts.length < maxS → ts.Pairwise (fun a b => b - a < ttl) →
      runStates ⟨maxS, ttl, []⟩ key ts = List.replicate ts.length false) ∧
    (0 < maxS → ts.length = maxS →
      ts.Pairwise (fun a b => b - a < ttl) →
      runStates ⟨maxS, ttl, []⟩ key ts =
        List.replicate (maxS - 1) false ++ [true]) ∧
    (∀ (d : LoopDetector) (now stale : Int), d.state_ttl ≤ now - stale →
      (addStaleEntry d key stale).record_state key now =
        d.record_state key now) := by
  refine ⟨?_, ?_, ?_⟩
  · intro hlt hpw
    have hwin := runStates_window key ts ⟨maxS, ttl, []⟩ [] rfl
      (by intro t _ a ha; simp at ha) hpw
    rw [hwin]
    exact expectedFlags_all_false ts.length maxS 0 (by omega)
  · intro hpos hlen hpw
    have hwin := runStates_window key ts ⟨maxS, ttl, []⟩ [] rfl
      (by intro t _ a ha; simp at ha) hpw
    rw [hwin, hlen]
    have := expectedFlags_spec maxS hpos 0
    simpa using this
  · intro d now stale hstale
    have hdrop : ¬ (now - stale < d.state_ttl) := by omega
    obtain ⟨m, t0, h0⟩ := d
    simp only [LoopDetector.record_state, addStaleEntry, historyOf] at hdrop ⊢
    simp only [lookupAssoc_updateAssoc_self, Option.getD_some]
    simp [List.filter_cons, hdrop, updateAssoc_updateAssoc]

/-- Witness for `C8_loop_detector_spec` at concrete inputs. -/
theorem C8_loop_detector_spec_witness :
    runStates ⟨3, 300, []⟩ "page1-step2" [0, 10] = [false, false] ∧
    runStates ⟨3, 300, []⟩ "page1-step2" [0, 10, 20] = [false, false, true] ∧
    (addStaleEntry ⟨3, 300, []⟩ "page1-step2" (-400)).record_state
        "page1-step2" 0 =
      (LoopDetector.mk 3 300 []).record_state "page1-step2" 0 := by
  refine ⟨?_, ?_, ?_⟩
  · exact (C8_loop_detector_spec 3 300 "page1-step2" [0, 10]).1
      (by decide) (by decide)
  · exact (C8_loop_detector_spec 3 300 "page1-step2" [0, 10, 20]).2.1
      (by decide) (by decide) (by decide)
  · exact (C8_loop_detector_spec 3 300 "page1-step2" []).2.2 ⟨3, 300, []⟩ 0
      (-400) (by decide)

/-! ## Discovered form fields (`src/modes/extractor.py`, fields used by the
matcher and the validator) -/

/-- The slice of `FormField` consumed by the matcher and the required-ness
classifier. -/
structure FormField where
  canonical_key : String
  label_visible : Option String
  help_text : Option String
  aria_label : Option String
  aria_required : Option Bool
  required_flag : Bool
  pattern : Option String
  min_length : Option Nat
  min_value : Option String
deriving DecidableEq, Repr

/-- Python truthiness of an optional string (`None` and `""` are falsy). -/
def optStrTruthy : Option String → Bool
  | some s => !(s == "")
  | none => false

/-- Python truthiness of an optional integer (`None` and `0` are falsy). -/
def optNatTruthy : Option Nat → Bool
  | some n => !(n == 0)
  | none => false

/-- `needle in hay` for Python strings, on character lists. -/
def listContainsSub (needle : List Char) : List Char → Bool
  | [] => needle.isEmpty
  | c :: cs => needle.isPrefixOf (c :: cs) || listContainsSub needle cs

/-- `needle in hay` for Python strings. -/
def strContains (hay needle : String) : Bool :=
  listContainsSub needle.toList hay.toList

/-- Python `str.lower` on a whole string (model, as in `normalize_text`). -/
def strLower (s : String) : String :=
  String.mk (s.toList.map lowerChar)

/-! ## Required-ness classifier (`src/modes/validator.py`) -/

/-- `REQUIRED_KEYWORDS` from `src/config.py`. -/
def REQUIRED_KEYWORDS : List String :=
  ["obligatorio", "requerido", "required", "necesario",
   "debe", "campo obligatorio", "campo requerido"]

/-- Signal 3: the visible label is truthy and contains `*` or `(*)`. -/
def hasAsterisk (f : FormField) : Bool :=
  match f.label_visible with
  | some s => if s = "" then false else strContains s "*" || strContains s "(*)"
  | none => false

/-- The combined text of signal 4:
`" ".join(filter(None, [label_visible, help_text, aria_label])).lower()`. -/
def combinedHelpText (f : FormField) : String :=
  strLower (String.intercalate " "
    (([f.label_visible, f.help_text, f.aria_label].filterMap id).filter
      (fun s => !(s == ""))))

/-- Signal 4: some required-ness keyword occurs in the combined text. -/
def hasRequiredKeyword (f : FormField) : Bool :=
  REQUIRED_KEYWORDS.any (fun kw => strContains (combinedHelpText f) kw)

/-- Signal 5: a truthy `pattern`, `min_length` or `min_value`. -/
def hasValidationRules (f : FormField) : Bool :=
  optStrTruthy f.pattern || optNatTruthy f.min_length || optStrTruthy f.min_value

/-- The `signals` list built by `Validator._detect_required`.  The blur-probe
(a page interaction) is modelled by its outcome `blur : Option Bool`
(`none` = could not determine, exactly as `_test_blur_validation`). -/
def detectSignals (f : FormField) (blur : Option Bool) : List (String × Bool) :=
  (if f.required_flag then [("html_required", true)] else [])
  ++ (if f.aria_required = some true then [("aria_required", true)] else [])
  ++ (if hasAsterisk f then [("asterisk", true)] else [])
  ++ (if hasRequiredKeyword f then [("keyword", true)] else [])
  ++ (if hasValidationRules f then [("validation_rules", true)] else [])
  ++ (match blur with | some b => [("blur_test", b)] | none => [])

/-- `Validator._detect_required`: `some true` = Required, `none` = Uncertain,
`some false` = Optional. -/
def detect_required (f : FormField) (blur : Option Bool) : Option Bool :=
  let signals := detectSignals f blur
  if signals = [] then some false
  else
    let positive := signals.countP (fun s => s.2 = true)
    if 2 ≤ positive then some true
    else if 1 ≤ positive then none
    else some false

/-- The six signal values of a field as the claim describes them
(`none` = absent/unknown). -/
def signalValues (f : FormField) (blur : Option Bool) : List (Option Bool) :=
  [some f.required_flag, f.aria_required, some (hasAsterisk f),
   some (hasRequiredKeyword f), some (hasValidationRules f), blur]

/-- The number of true-valued signals. -/
def positiveSignalCount (f : FormField) (blur : Option Bool) : Nat :=
  (signalValues f blur).countP (fun v => v = some true)

/-- Claim C4: the classifier's verdict is a function of the count of
true-valued signals alone — Optional (`some false`) when the count is 0
(including the no-signals case), Uncertain (`none`) when it is exactly 1,
Required (`some true`) when it is at least 2; absent/unknown (`none`) and
false-valued signals never contribute to the count. -/
theorem C4_required_classifier (f : FormField) (blur : Option Bool) :
    detect_required f blur =
      (if 2 ≤ positiveSignalCount f blur then some true
       else if positiveSignalCount f blur = 1 then none
       else some false) := by
  have key : (detectSignals f blur).countP (fun s => decide (s.2 = true)) =
      positiveSignalCount f blur := by
    unfold positiveSignalCount signalValues detectSignals
    by_cases h1 : f.required_flag <;>
      by_cases h2 : f.aria_required = some true <;>
      by_cases h3 : hasAsterisk f <;>
      by_cases h4 : hasRequiredKeyword f <;>
      by_cases h5 : hasValidationRules f <;>
      rcases blur with _ | b <;>
      simp [h1, h2, h3, h4, h5, List.countP_append, List.countP_cons]
  unfold detect_required
  by_cases hempty : detectSignals f blur = []
  · have h0 : positiveSignalCount f blur = 0 := by
      rw [← key, hempty]
      rfl
    simp [hempty, h0]
  · simp only [hempty, if_false, ite_false, key]
    by_cases h2 : 2 ≤ positiveSignalCount f blur
    · simp [h2]
    · by_cases h1 : 1 ≤ positiveSignalCount f blur
      · have hpos : positiveSignalCount f blur = 1 := by omega
        simp [h2, hpos]
      · have hpos : positiveSignalCount f blur = 0 := by omega
        simp [h2, hpos]

/-- Witness for `C4_required_classifier` applied to a concrete field: one
true signal (validation rules) with unknown blur probe yields Uncertain. -/
theorem C4_required_classifier_witness :
    detect_required
      ⟨"telefono", some "Teléfono", none, none, some false, false,
        some "[0-9]+", none, none⟩ none = none := by
  have h := C4_required_classifier
    ⟨"telefono", some "Teléfono", none, none, some false, false,
      some "[0-9]+", none, none⟩ none
  rw [h]
  decide

/-! ## Checklist file loading (`src/modes/matcher.py`) -/

/-- The lines of the sample checklist written by
`Matcher._create_sample_qa_file`. -/
def sampleQaLines : List String :=
  ["# Campos Fundamentales QA - CORFO",
   "# Un campo por línea. Líneas que empiezan con # son comentarios.",
   "",
   "# Identificación",
   "RUT",
   "Nombre",
   "Apellido Paterno",
   "Apellido Materno",
   "Email",
   "Teléfono",
   "",
   "# Datos de Empresa",
   "Razón Social",
   "RUT Empresa",
   "Giro Comercial",
   "Fecha Inicio Actividades",
   "",
   "# Ubicación",
   "Dirección",
   "Comuna",
   "Región",
   "",
   "# Proyecto",
   "Nombre del Proyecto",
   "Descripción del Proyecto",
   "Monto Solicitado",
   "Duración del Proyecto"]

/-- Python `line.strip()` (model, as `trimChars`). -/
def stripLine (s : String) : String :=
  String.mk (trimChars s.toList)

/-- Python `line.startswith('#')`. -/
def startsHash (s : String) : Bool :=
  match s.toList with
  | '#' :: _ => true
  | _ => false

/-- The line-filtering loop of `Matcher._load_qa_fields`: strip each line and
keep the non-blank, non-comment ones. -/
def parseQaLines (lines : List String) : List String :=
  (lines.map stripLine).filter (fun l => !(l == "") && !(startsHash l))

/-- `Matcher._load_qa_fields`: the file is modelled by its list of lines when
present; when absent, `_create_sample_qa_file` materializes the sample
checklist at the configured path and loading proceeds from it. -/
def load_qa_fields (file : Option (List String)) : List String :=
  match file with
  | some lines => parseQaLines lines
  | none => parseQaLines sampleQaLines

/-- Claim C9: blank lines and `#`-comment lines are ignored and every other
line becomes one checklist entry (stripped), in order; when the file is
absent the default sample checklist is materialized and loaded instead of
failing, yielding its 17 field names. -/
theorem C9_checklist_loading :
    (∀ (l : String) (lines : List String),
      (stripLine l = "" ∨ startsHash (stripLine l) = true) →
      load_qa_fields (some (l :: lines)) = load_qa_fields (some lines)) ∧
    (∀ (l : String) (lines : List String),
      stripLine l ≠ "" → startsHash (stripLine l) = false →
      load_qa_fields (some (l :: lines)) =
        stripLine l :: load_qa_fields (some lines)) ∧
    load_qa_fields none = load_qa_fields (some sampleQaLines) ∧
    load_qa_fields none =
      ["RUT", "Nombre", "Apellido Paterno", "Apellido Materno", "Email",
       "Teléfono", "Razón Social", "RUT Empresa", "Giro Comercial",
       "Fecha Inicio Actividades", "Dirección", "Comuna", "Región",
       "Nombre del Proyecto", "Descripción del Proyecto", "Monto Solicitado",
       "Duración del Proyecto"] := by
  refine ⟨?_, ?_, rfl, by decide⟩
  · intro l lines h
    unfold load_qa_fields parseQaLines
    rcases h with h | h <;> simp [List.filter_cons, h]
  · intro l lines h1 h2
    unfold load_qa_fields parseQaLines
    simp [List.filter_cons, h1, h2]

/-- Witness for `C9_checklist_loading` at concrete inputs. -/
theorem C9_checklist_loading_witness :
    load_qa_fields (some ["# comentario", "  RUT  ", "", "Email"]) =
      ["RUT", "Email"] := by
  rw [(C9_checklist_loading).1 "# comentario" _ (Or.inr (by decide)),
    (C9_checklist_loading).2.1 "  RUT  " _ (by decide) (by decide),
    (C9_checklist_loading).1 "" _ (Or.inl (by decide)),
    (C9_checklist_loading).2.1 "Email" _ (by decide) (by decide)]
  decide

/-! ## Tiered matcher (`src/modes/matcher.py`) -/

/-- `FIELD_SYNONYMS` from `src/utils/normalizer.py`, in source order. -/
def FIELD_SYNONYMS : List (String × List String) :=
  [("nombre", ["nombres", "primer nombre", "nombre completo"]),
   ("apellido", ["apellidos", "apellido completo"]),
   ("apellido paterno", ["primer apellido", "ap paterno"]),
   ("apellido materno", ["segundo apellido", "ap materno"]),
   ("rut", ["run", "rol unico tributario", "rol unico nacional", "cedula"]),
   ("email", ["correo", "correo electronico", "e-mail", "mail"]),
   ("telefono", ["tel", "fono", "celular", "movil"]),
   ("direccion", ["domicilio", "dir", "calle"]),
   ("fecha nacimiento", ["fecha nac", "fec nacimiento", "fecha de nacimiento"]),
   ("razon social", ["nombre empresa", "nombre comercial", "empresa"]),
   ("giro", ["actividad", "rubro", "giro comercial"])]

/-- Insert a string into a list if not already present (Python `set.add`,
with insertion order as the list order). -/
def insertUniq (xs : List String) (x : String) : List String :=
  if x ∈ xs then xs else xs ++ [x]

/-- Python `set.update`. -/
def setUnionList (xs ys : List String) : List String :=
  ys.foldl insertUniq xs

/-- The synonym-dictionary loop of `find_synonyms`: on the first key whose
normalization equals `normalized` the loop adds its synonym list and breaks;
a key one of whose synonyms normalizes to `normalized` contributes the key
and the whole synonym list, and the loop continues. -/
def findSynonymsAux (normalized : String) :
    List (String × List String) → List String
  | [] => []
  | (key, syns) :: rest =>
    if normalized = normalize_text key true then
      syns.map (fun s => normalize_text s true)
    else if syns.any (fun s => normalized = normalize_text s true) then
      (normalize_text key true :: syns.map (fun s => normalize_text s true))
        ++ findSynonymsAux normalized rest
    else findSynonymsAux normalized rest

/-- `find_synonyms` from `src/utils/normalizer.py`.  The source returns a
Python `set` (whose iteration order is unspecified); the model keeps
insertion order and deduplicates, which is membership-equivalent, and the
theorems below only depend on membership. -/
def find_synonyms (text : String) : List String :=
  let normalized := normalize_text text true
  setUnionList [normalized] (findSynonymsAux normalized FIELD_SYNONYMS)

/-- `QAField` from `src/modes/matcher.py`. -/
structure QAField where
  original_text : String
  normalized : String
  canonical_key : String
  synonyms : List String
deriving DecidableEq, Repr

/-- The `QAField.__init__` constructor. -/
def mkQAField (original_text : String) : QAField :=
  ⟨original_text, normalize_text original_text true,
   get_canonical_key original_text, find_synonyms original_text⟩

/-- `MatchResult` from `src/modes/matcher.py`.  Statuses are the source's
strings: "PRESENTE" (PRESENT), "FALTANTE" (MISSING), "POTENCIAL_EQUIVALENTE"
(POTENTIAL_EQUIVALENT). -/
structure MatchResult where
  qa_field : String
  status : String
  found_field : Option String
  similarity : ℚ
  match_type : String
deriving DecidableEq, Repr

/-- Python `field.label_visible or canonical_key` (`None` and `""` falsy). -/
def labelOr (lv : Option String) (k : String) : String :=
  match lv with
  | some s => if s = "" then k else s
  | none => k

/-- The `found_fields_index` dict comprehension of `_perform_matching`:
later fields with the same canonical key overwrite earlier ones. -/
def buildIndex (fields : List FormField) : List (String × FormField) :=
  fields.foldl (fun idx f => updateAssoc f.canonical_key f idx) []

/-- `Matcher._try_exact_match`. -/
def tryExactMatch (qa : QAField) (idx : List (String × FormField))
    (matched : List String) : Option MatchResult :=
  match lookupAssoc idx qa.canonical_key with
  | some f =>
    if f.canonical_key ∈ matched then none
    else some ⟨qa.original_text, "PRESENTE", some f.canonical_key, 1, "exact"⟩
  | none => none

/-- The synonym loop of `Matcher._try_synonym_match`: the first synonym whose
canonical key is in the index and unclaimed wins; a synonym hitting a claimed
field is skipped and the loop continues. -/
def trySynonymMatchAux (qa : QAField) (idx : List (String × FormField))
    (matched : List String) : List String → Option MatchResult
  | [] => none
  | s :: rest =>
    match lookupAssoc idx s with
    | some f =>
      if f.canonical_key ∈ matched then trySynonymMatchAux qa idx matched rest
      else some ⟨qa.original_text, "PRESENTE", some f.canonical_key,
        95/100, "synonym"⟩
    | none => trySynonymMatchAux qa idx matched rest

/-- `Matcher._try_synonym_match`. -/
def trySynonymMatch (qa : QAField) (idx : List (String × FormField))
    (matched : List String) : Option MatchResult :=
  trySynonymMatchAux qa idx matched qa.synonyms

/-- The combined score of `_try_similarity_match`:
`0.6 × Jaccard(original_text, bestLabel) + 0.4 × fuzz(normalized,
normalize(bestLabel))`, where `fz` models the external `fuzz.ratio(...)/100`
(an edit-similarity in [0,1]). -/
def combinedScore (qa : QAField) (k : String) (f : FormField)
    (fz : String → String → ℚ) : ℚ :=
  calculate_similarity qa.original_text (labelOr f.label_visible k) * (6/10)
    + fz qa.normalized (normalize_text (labelOr f.label_visible k) true) * (4/10)

/-- The best-candidate fold of `_try_similarity_match`: skip claimed keys, and
replace the current best only on a strictly greater combined score
(`combined_sim > best_similarity`; `best_similarity` starts at the
threshold). -/
def simFold (cmb : String → FormField → ℚ) (matched : List String) :
    List (String × FormField) → ℚ → Option (FormField × ℚ) →
    Option (FormField × ℚ)
  | [], _, best => best
  | (k, f) :: rest, bestSim, best =>
    if k ∈ matched then simFold cmb matched rest bestSim best
    else if bestSim < cmb k f then
      simFold cmb matched rest (cmb k f) (some (f, cmb k f))
    else simFold cmb matched rest bestSim best

/-- `Matcher._try_similarity_match`: status PRESENTE when the winning score
is ≥ 0.9, POTENCIAL_EQUIVALENTE otherwise. -/
def trySimilarityMatch (qa : QAField) (idx : List (String × FormField))
    (matched : List String) (threshold : ℚ)
    (fz : String → String → ℚ) : Option MatchResult :=
  match simFold (fun k f => combinedScore qa k f fz) matched idx threshold none with
  | some (f, s) =>
    some ⟨qa.original_text,
      if 9/10 ≤ s then "PRESENTE" else "POTENCIAL_EQUIVALENTE",
      some f.canonical_key, s, "similarity"⟩
  | none => none

/-- One iteration of the `_perform_matching` loop: exact, then synonym, then
similarity, else FALTANTE. -/
def matchEntry (qa : QAField) (idx : List (String × FormField))
    (matched : List String) (threshold : ℚ)
    (fz : String → String → ℚ) : MatchResult :=
  match tryExactMatch qa idx matched with
  | some r => r
  | none =>
    match trySynonymMatch qa idx matched with
    | some r => r
    | none =>
      match trySimilarityMatch qa idx matched threshold fz with
      | some r => r
      | none => ⟨qa.original_text, "FALTANTE", none, 0, "none"⟩

/-- The `_perform_matching` loop over checklist entries, threading the
claimed-key set. -/
def performAux (idx : List (String × FormField)) (threshold : ℚ)
    (fz : String → String → ℚ) : List QAField → List String → List MatchResult
  | [], _ => []
  | qa :: rest, matched =>
    let r := matchEntry qa idx matched threshold fz
    r :: performAux idx threshold fz rest
      (match r.found_field with | some k => k :: matched | none => matched)

/-- `Matcher._perform_matching`. -/
def performMatching (qaFields : List QAField) (fields : List FormField)
    (threshold : ℚ) (fz : String → String → ℚ) : List MatchResult :=
  performAux (buildIndex fields) threshold fz qaFields []

/-- The `matched_field_keys` set comprehension of `_identify_extra_fields`:
`{result.found_field for result in match_results if result.found_field}` —
note the Python truthiness test, which drops the empty string. -/
def truthyFoundKeys (results : List MatchResult) : List String :=
  results.filterMap (fun r =>
    match r.found_field with
    | some s => if s = "" then none else some s
    | none => none)

/-- `Matcher._identify_extra_fields`: one extras entry per unclaimed field,
in field order. -/
def identifyExtras (fields : List FormField) (results : List MatchResult) :
    List String :=
  fields.filterMap (fun f =>
    if f.canonical_key ∈ truthyFoundKeys results then none
    else some f.canonical_key)

/-- Default of `Config.qa_match_threshold` (`src/config.py`). -/
def qa_match_threshold_default : ℚ := 8/10

/-- A trivial edit-similarity stand-in used by concrete witnesses (the tier
logic under test never reaches it in those scenarios). -/
def fzZero : String → String → ℚ := fun _ _ => 0

/-! ### Index lemmas -/

theorem mem_updateAssoc {beta : Type} {p : String × beta}
    {h : List (String × beta)} {k : String} {v : beta}
    (hp : p ∈ updateAssoc k v h) : p = (k, v) ∨ p ∈ h := by
  induction h with
  | nil => simpa [updateAssoc] using hp
  | cons q rest ih =>
    by_cases hq : q.1 = k
    · simp only [updateAssoc, hq, if_true, ite_true] at hp
      rcases List.mem_cons.mp hp with h1 | h1
      · exact Or.inl h1
      · exact Or.inr (List.mem_cons_of_mem q h1)
    · simp only [updateAssoc, hq, if_false, ite_false] at hp
      rcases List.mem_cons.mp hp with h1 | h1
      · exact Or.inr (h1 ▸ List.mem_cons_self q rest)
      · rcases ih h1 with h2 | h2
        · exact Or.inl h2
        · exact Or.inr (List.mem_cons_of_mem q h2)

theorem buildIndex_val_key (fields : List FormField) :
    ∀ p ∈ buildIndex fields, p.2.canonical_key = p.1 := by
  have main : ∀ (fs : List FormField) (idx : List (String × FormField)),
      (∀ p ∈ idx, p.2.canonical_key = p.1) →
      ∀ p ∈ fs.foldl (fun idx f => updateAssoc f.canonical_key f idx) idx,
        p.2.canonical_key = p.1 := by
    intro fs
    induction fs with
    | nil => intro idx hidx p hp; exact hidx p hp
    | cons f rest ih =>
      intro idx hidx p hp
      refine ih _ ?_ p hp
      intro q hq
      rcases mem_updateAssoc hq with h1 | h1
      · rw [h1]
      · exact hidx q h1
  exact main fields [] (by intro p hp; simp at hp)

theorem keys_mem_updateAssoc {beta : Type} {h : List (String × beta)}
    {k k' : String} {v : beta}
    (hp : k' ∈ (updateAssoc k v h).map Prod.fst) :
    k' = k ∨ k' ∈ h.map Prod.fst := by
  rcases List.mem_map.mp hp with ⟨p, hpmem, hpk⟩
  rcases mem_updateAssoc hpmem with h1 | h1
  · left
    rw [← hpk, h1]
  · right
    exact List.mem_map.mpr ⟨p, h1, hpk⟩

theorem nodup_keys_updateAssoc {beta : Type} (h : List (String × beta))
    (k : String) (v : beta) (hnd : (h.map Prod.fst).Nodup) :
    ((updateAssoc k v h).map Prod.fst).Nodup := by
  induction h with
  | nil => simp [updateAssoc]
  | cons q rest ih =>
    rw [List.map_cons, List.nodup_cons] at hnd
    by_cases hq : q.1 = k
    · simp only [updateAssoc, hq, if_true, ite_true, List.map_cons,
        List.nodup_cons]
      exact ⟨hq ▸ hnd.1, hnd.2⟩
    · simp only [updateAssoc, hq, if_false, ite_false, List.map_cons,
        List.nodup_cons]
      refine ⟨?_, ih hnd.2⟩
      intro hmem
      rcases keys_mem_updateAssoc hmem with h1 | h1
      · exact hq h1
      · exact hnd.1 h1

theorem buildIndex_nodup_keys (fields : List FormField) :
    ((buildIndex fields).map Prod.fst).Nodup := by
  have main : ∀ (fs : List FormField) (idx : List (String × FormField)),
      (idx.map Prod.fst).Nodup →
      (((fs.foldl (fun idx f => updateAssoc f.canonical_key f idx) idx)).map
        Prod.fst).Nodup := by
    intro fs
    induction fs with
    | nil => intro idx hidx; exact hidx
    | cons f rest ih =>
      intro idx hidx
      exact ih _ (nodup_keys_updateAssoc idx f.canonical_key f hidx)
  exact main fields [] (by simp)

theorem assoc_nodup_val_eq {beta : Type} {L : List (String × beta)}
    (hnd : (L.map Prod.fst).Nodup) {k : String} {f f' : beta}
    (h1 : (k, f) ∈ L) (h2 : (k, f') ∈ L) : f = f' := by
  induction L with
  | nil => simp at h1
  | cons p rest ih =>
    rw [List.map_cons, List.nodup_cons] at hnd
    rcases List.mem_cons.mp h1 with ha | ha <;>
      rcases List.mem_cons.mp h2 with hb | hb
    · have hab := hb.trans ha.symm
      injection hab with _ hv
      exact hv.symm
    · exfalso
      exact hnd.1 (List.mem_map.mpr ⟨(k, f'), hb, by rw [← ha]⟩)
    · exfalso
      exact hnd.1 (List.mem_map.mpr ⟨(k, f), ha, by rw [← hb]⟩)
    · exact ih hnd.2 ha hb

theorem lookupAssoc_buildIndex (fields : List FormField) (k : String) :
    lookupAssoc (buildIndex fields) k =
      fields.reverse.find? (fun f => f.canonical_key = k) := by
  induction fields using List.reverseRecOn with
  | nil => rfl
  | append_singleton fs f ih =>
    have hb : buildIndex (fs ++ [f]) =
        updateAssoc f.canonical_key f (buildIndex fs) := by
      unfold buildIndex
      rw [List.foldl_append]
      rfl
    rw [hb, List.reverse_append]
    by_cases hk : f.canonical_key = k
    · rw [hk, lookupAssoc_updateAssoc_self]
      simp [List.find?, hk]
    · rw [lookupAssoc_updateAssoc_ne _ _ (fun hh => hk hh.symm), ih]
      simp [List.find?, hk]

theorem lookupAssoc_mem {beta : Type} {h : List (String × beta)} {k : String}
    {v : beta} (hl : lookupAssoc h k = some v) : (k, v) ∈ h := by
  induction h with
  | nil => simp [lookupAssoc, List.find?] at hl
  | cons p rest ih =>
    by_cases hp : p.1 = k
    · rw [lookupAssoc_cons_self p rest hp] at hl
      have hval : p.2 = v := by injection hl
      have hpkv : p = (k, v) := by rw [← hp, ← hval]
      exact hpkv ▸ List.mem_cons_self p rest
    · rw [lookupAssoc_cons_ne p rest hp] at hl
      exact List.mem_cons_of_mem p (ih hl)

/-! ### Tier characterizations -/

theorem tryExactMatch_none_iff (qa : QAField) (idx : List (String × FormField))
    (matched : List String) :
    tryExactMatch qa idx matched = none ↔
      ∀ f, lookupAssoc idx qa.canonical_key = some f →
        f.canonical_key ∈ matched := by
  unfold tryExactMatch
  rcases hl : lookupAssoc idx qa.canonical_key with _ | f
  · simp
  · by_cases hm : f.canonical_key ∈ matched
    · simp [hm]
    · simp [hm]

theorem tryExactMatch_some (qa : QAField) (idx : List (String × FormField))
    (matched : List String) (f : FormField)
    (hl : lookupAssoc idx qa.canonical_key = some f)
    (hm : f.canonical_key ∉ matched) :
    tryExactMatch qa idx matched =
      some ⟨qa.original_text, "PRESENTE", some f.canonical_key, 1, "exact"⟩ := by
  unfold tryExactMatch
  rw [hl]
  simp [hm]

theorem trySynonymMatchAux_none_iff (qa : QAField)
    (idx : List (String × FormField)) (matched : List String)
    (syns : List String) :
    trySynonymMatchAux qa idx matched syns = none ↔
      ∀ s ∈ syns, ∀ f, lookupAssoc idx s = some f →
        f.canonical_key ∈ matched := by
  induction syns with
  | nil => simp [trySynonymMatchAux]
  | cons s rest ih =>
    unfold trySynonymMatchAux
    rcases hl : lookupAssoc idx s with _ | f
    · rw [ih]
      constructor
      · intro h s' hs' f' hf'
        rcases List.mem_cons.mp hs' with h1 | h1
        · rw [h1] at hf'
          rw [hf'] at hl
          exact absurd hl (by simp)
        · exact h s' h1 f' hf'
      · intro h s' hs' f' hf'
        exact h s' (List.mem_cons_of_mem s hs') f' hf'
    · by_cases hm : f.canonical_key ∈ matched
      · simp only [hm, if_true, ite_true]
        rw [ih]
        constructor
        · intro h s' hs' f' hf'
          rcases List.mem_cons.mp hs' with h1 | h1
          · rw [h1] at hf'
            rw [hf'] at hl
            injection hl with hl'
            rw [hl']
            exact hm
          · exact h s' h1 f' hf'
        · intro h s' hs' f' hf'
          exact h s' (List.mem_cons_of_mem s hs') f' hf'
      · simp only [hm, if_false, ite_false]
        constructor
        · intro h
          exact absurd h (by simp)
        · intro h
          exact absurd (h s (List.mem_cons_self s rest) f hl) hm

theorem trySynonymMatchAux_some (qa : QAField)
    (idx : List (String × FormField)) (matched : List String)
    (syns : List String) (r : MatchResult)
    (h : trySynonymMatchAux qa idx matched syns = some r) :
    ∃ s ∈ syns, ∃ f, lookupAssoc idx s = some f ∧
      f.canonical_key ∉ matched ∧
      r = ⟨qa.original_text, "PRESENTE", some f.canonical_key,
        95/100, "synonym"⟩ := by
  induction syns with
  | nil => simp [trySynonymMatchAux] at h
  | cons s rest ih =>
    unfold trySynonymMatchAux at h
    rcases hl : lookupAssoc idx s with _ | f
    · rw [hl] at h
      rcases ih h with ⟨s', hs', hrest⟩
      exact ⟨s', List.mem_cons_of_mem s hs', hrest⟩
    · rw [hl] at h
      by_cases hm : f.canonical_key ∈ matched
      · simp only [hm, if_true, ite_true] at h
        rcases ih h with ⟨s', hs', hrest⟩
        exact ⟨s', List.mem_cons_of_mem s hs', hrest⟩
      · simp only [hm, if_false, ite_false] at h
        injection h with h'
        exact ⟨s, List.mem_cons_self s rest, f, hl, hm, h'.symm⟩

/-! ### Similarity-fold lemmas -/

theorem simFold_const (cmb : String → FormField → ℚ) (matched : List String) :
    ∀ (L : List (String × FormField)) (bestSim : ℚ)
      (best : Option (FormField × ℚ)),
    (∀ k f, (k, f) ∈ L → k ∉ matched → cmb k f ≤ bestSim) →
    simFold cmb matched L bestSim best = best := by
  intro L
  induction L with
  | nil => intro bestSim best _; rfl
  | cons p rest ih =>
    intro bestSim best h
    rcases p with ⟨k, f⟩
    by_cases hm : k ∈ matched
    · simp only [simFold, hm, if_true, ite_true]
      exact ih bestSim best (fun k' f' hmem hm' =>
        h k' f' (List.mem_cons_of_mem _ hmem) hm')
    · have hle : ¬ bestSim < cmb k f :=
        not_lt.mpr (h k f (List.mem_cons_self _ _) hm)
      simp only [simFold, hm, if_false, ite_false, hle]
      exact ih bestSim best (fun k' f' hmem hm' =>
        h k' f' (List.mem_cons_of_mem _ hmem) hm')

theorem simFold_sound (cmb : String → FormField → ℚ) (matched : List String) :
    ∀ (L : List (String × FormField)) (bestSim : ℚ)
      (best r : Option (FormField × ℚ)),
    simFold cmb matched L bestSim best = r →
    r = best ∨ ∃ k f, r = some (f, cmb k f) ∧ (k, f) ∈ L ∧ k ∉ matched ∧
      bestSim < cmb k f := by
  intro L
  induction L with
  | nil => intro bestSim best r h; exact Or.inl h.symm
  | cons p rest ih =>
    intro bestSim best r h
    rcases p with ⟨k, f⟩
    by_cases hm : k ∈ matched
    · simp only [simFold, hm, if_true, ite_true] at h
      rcases ih bestSim best r h with h1 | ⟨k', f', h1, h2, h3, h4⟩
      · exact Or.inl h1
      · exact Or.inr ⟨k', f', h1, List.mem_cons_of_mem _ h2, h3, h4⟩
    · by_cases hlt : bestSim < cmb k f
      · simp only [simFold, hm, if_false, ite_false, hlt, if_true, ite_true] at h
        rcases ih (cmb k f) (some (f, cmb k f)) r h with
          h1 | ⟨k', f', h1, h2, h3, h4⟩
        · exact Or.inr ⟨k, f, h1, List.mem_cons_self _ _, hm, hlt⟩
        · exact Or.inr ⟨k', f', h1, List.mem_cons_of_mem _ h2, h3,
            lt_trans hlt h4⟩
      · simp only [simFold, hm, if_false, ite_false, hlt] at h
        rcases ih bestSim best r h with h1 | ⟨k', f', h1, h2, h3, h4⟩
        · exact Or.inl h1
        · exact Or.inr ⟨k', f', h1, List.mem_cons_of_mem _ h2, h3, h4⟩

theorem simFold_max (cmb : String → FormField → ℚ) (matched : List String)
    (k0 : String) (f0 : FormField) :
    ∀ (L : List (String × FormField)) (bestSim : ℚ)
      (best : Option (FormField × ℚ)),
    (L.map Prod.fst).Nodup → (k0, f0) ∈ L → k0 ∉ matched →
    bestSim < cmb k0 f0 →
    (∀ k f, (k, f) ∈ L → k ∉ matched → k ≠ k0 → cmb k f < cmb k0 f0) →
    simFold cmb matched L bestSim best = some (f0, cmb k0 f0) := by
  intro L
  induction L with
  | nil => intro bestSim best _ hmem; simp at hmem
  | cons p rest ih =>
    intro bestSim best hnd hmem hm0 hgt hmax
    rcases p with ⟨k, f⟩
    rw [List.map_cons, List.nodup_cons] at hnd
    rcases List.mem_cons.mp hmem with hhead | htail
    · injection hhead with hk hf
      subst hk
      subst hf
      simp only [simFold, hm0, if_false, ite_false, hgt, if_true, ite_true]
      exact simFold_const cmb matched rest (cmb k0 f0) _
        (fun k' f' hmem' hm' => by
          have hne : k' ≠ k0 := by
            intro he
            exact hnd.1 (he ▸ List.mem_map.mpr ⟨(k', f'), hmem', rfl⟩)
          exact le_of_lt (hmax k' f' (List.mem_cons_of_mem _ hmem') hm' hne))
    · have hkne : k ≠ k0 := by
        intro he
        exact hnd.1 (List.mem_map.mpr ⟨(k0, f0), htail, he.symm⟩)
      by_cases hm : k ∈ matched
      · simp only [simFold, hm, if_true, ite_true]
        exact ih bestSim best hnd.2 htail hm0 hgt
          (fun k' f' hmem' hm' hne' =>
            hmax k' f' (List.mem_cons_of_mem _ hmem') hm' hne')
      · have hlt : cmb k f < cmb k0 f0 :=
          hmax k f (List.mem_cons_self _ _) hm hkne
        by_cases hbl : bestSim < cmb k f
        · simp only [simFold, hm, if_false, ite_false, hbl, if_true, ite_true]
          exact ih (cmb k f) _ hnd.2 htail hm0 hlt
            (fun k' f' hmem' hm' hne' =>
              hmax k' f' (List.mem_cons_of_mem _ hmem') hm' hne')
        · simp only [simFold, hm, if_false, ite_false, hbl]
          exact ih bestSim best hnd.2 htail hm0 hgt
            (fun k' f' hmem' hm' hne' =>
              hmax k' f' (List.mem_cons_of_mem _ hmem') hm' hne')

theorem trySimilarityMatch_none (qa : QAField)
    (idx : List (String × FormField)) (matched : List String)
    (threshold : ℚ) (fz : String → String → ℚ)
    (h : ∀ k f, (k, f) ∈ idx → k ∉ matched →
      combinedScore qa k f fz ≤ threshold) :
    trySimilarityMatch qa idx matched threshold fz = none := by
  unfold trySimilarityMatch
  rw [simFold_const _ _ idx threshold none h]

theorem trySimilarityMatch_max (qa : QAField)
    (idx : List (String × FormField)) (matched : List String)
    (threshold : ℚ) (fz : String → String → ℚ)
    (k0 : String) (f0 : FormField)
    (hnd : (idx.map Prod.fst).Nodup) (hmem : (k0, f0) ∈ idx)
    (hm0 : k0 ∉ matched) (hgt : threshold < combinedScore qa k0 f0 fz)
    (hmax : ∀ k f, (k, f) ∈ idx → k ∉ matched → k ≠ k0 →
      combinedScore qa k f fz < combinedScore qa k0 f0 fz) :
    trySimilarityMatch qa idx matched threshold fz =
      some ⟨qa.original_text,
        if 9/10 ≤ combinedScore qa k0 f0 fz then "PRESENTE"
        else "POTENCIAL_EQUIVALENTE",
        some f0.canonical_key, combinedScore qa k0 f0 fz, "similarity"⟩ := by
  unfold trySimilarityMatch
  rw [simFold_max (fun k f => combinedScore qa k f fz) matched k0 f0 idx
    threshold none hnd hmem hm0 hgt hmax]

theorem trySimilarityMatch_some_sound (qa : QAField)
    (idx : List (String × FormField)) (matched : List String)
    (threshold : ℚ) (fz : String → String → ℚ) (r : MatchResult)
    (h : trySimilarityMatch qa idx matched threshold fz = some r) :
    ∃ k f, (k, f) ∈ idx ∧ k ∉ matched ∧
      threshold < combinedScore qa k f fz ∧
      r = ⟨qa.original_text,
        if 9/10 ≤ combinedScore qa k f fz then "PRESENTE"
        else "POTENCIAL_EQUIVALENTE",
        some f.canonical_key, combinedScore qa k f fz, "similarity"⟩ := by
  unfold trySimilarityMatch at h
  rcases hs : simFold (fun k f => combinedScore qa k f fz) matched idx
    threshold none with _ | ⟨f, c⟩
  · rw [hs] at h
    simp at h
  · rw [hs] at h
    rcases simFold_sound _ _ idx threshold none _ hs with h1 | ⟨k', f', h1, h2, h3, h4⟩
    · simp at h1
    · injection h1 with h1'
      injection h1' with hf hc
      subst hf
      refine ⟨k', f, h2, h3, h4, ?_⟩
      injection h with h'
      rw [← h', hc]

/-! ### `matchEntry` dispatch lemmas -/

theorem matchEntry_of_exact (qa : QAField) (idx : List (String × FormField))
    (matched : List String) (threshold : ℚ) (fz : String → String → ℚ)
    (f : FormField) (hl : lookupAssoc idx qa.canonical_key = some f)
    (hm : f.canonical_key ∉ matched) :
    matchEntry qa idx matched threshold fz =
      ⟨qa.original_text, "PRESENTE", some f.canonical_key, 1, "exact"⟩ := by
  unfold matchEntry
  rw [tryExactMatch_some qa idx matched f hl hm]

theorem matchEntry_of_synonym (qa : QAField) (idx : List (String × FormField))
    (matched : List String) (threshold : ℚ) (fz : String → String → ℚ)
    (r : MatchResult) (hex : tryExactMatch qa idx matched = none)
    (hsy : trySynonymMatch qa idx matched = some r) :
    matchEntry qa idx matched threshold fz = r := by
  unfold matchEntry
  rw [hex, hsy]

theorem matchEntry_of_similarity (qa : QAField)
    (idx : List (String × FormField)) (matched : List String) (threshold : ℚ)
    (fz : String → String → ℚ) (r : MatchResult)
    (hex : tryExactMatch qa idx matched = none)
    (hsy : trySynonymMatch qa idx matched = none)
    (hsim : trySimilarityMatch qa idx matched threshold fz = some r) :
    matchEntry qa idx matched threshold fz = r := by
  unfold matchEntry
  rw [hex, hsy, hsim]

theorem matchEntry_of_no_tier (qa : QAField) (idx : List (String × FormField))
    (matched : List String) (threshold : ℚ) (fz : String → String → ℚ)
    (hex : tryExactMatch qa idx matched = none)
    (hsy : trySynonymMatch qa idx matched = none)
    (hsim : trySimilarityMatch qa idx matched threshold fz = none) :
    matchEntry qa idx matched threshold fz =
      ⟨qa.original_text, "FALTANTE", none, 0, "none"⟩ := by
  unfold matchEntry
  rw [hex, hsy, hsim]

theorem matchEntry_found_not_matched (qa : QAField)
    (idx : List (String × FormField)) (matched : List String) (threshold : ℚ)
    (fz : String → String → ℚ)
    (hidx : ∀ p ∈ idx, p.2.canonical_key = p.1) (k : String)
    (h : (matchEntry qa idx matched threshold fz).found_field = some k) :
    k ∉ matched := by
  unfold matchEntry at h
  rcases hex : tryExactMatch qa idx matched with _ | r
  · rw [hex] at h
    rcases hsy : trySynonymMatch qa idx matched with _ | r
    · rw [hsy] at h
      rcases hsim : trySimilarityMatch qa idx matched threshold fz with _ | r
      · rw [hsim] at h
        simp at h
      · rw [hsim] at h
        rcases trySimilarityMatch_some_sound qa idx matched threshold fz r hsim
          with ⟨k', f, hmem, hm, _, hr⟩
        rw [hr] at h
        simp only at h
        injection h with h'
        rw [← h', hidx (k', f) hmem]
        exact hm
    · rw [hsy] at h
      rcases trySynonymMatchAux_some qa idx matched qa.synonyms r hsy
        with ⟨s, _, f, _, hm, hr⟩
      rw [hr] at h
      simp only at h
      injection h with h'
      rw [← h']
      exact hm
  · rw [hex] at h
    unfold tryExactMatch at hex
    rcases hl : lookupAssoc idx qa.canonical_key with _ | f
    · rw [hl] at hex
      simp at hex
    · rw [hl] at hex
      by_cases hm : f.canonical_key ∈ matched
      · simp [hm] at hex
      · simp only [hm, if_false, ite_false] at hex
        injection hex with hex'
        rw [← hex'] at h
        simp only at h
        injection h with h'
        rw [← h']
        exact hm

/-! ### `performAux` invariants -/

theorem performAux_length (idx : List (String × FormField)) (threshold : ℚ)
    (fz : String → String → ℚ) :
    ∀ (qas : List QAField) (matched : List String),
    (performAux idx threshold fz qas matched).length = qas.length := by
  intro qas
  induction qas with
  | nil => intro matched; rfl
  | cons qa rest ih =>
    intro matched
    simp only [performAux, List.length_cons, ih]

theorem performAux_found_not_matched (idx : List (String × FormField))
    (threshold : ℚ) (fz : String → String → ℚ)
    (hidx : ∀ p ∈ idx, p.2.canonical_key = p.1) :
    ∀ (qas : List QAField) (matched : List String) (r : MatchResult),
    r ∈ performAux idx threshold fz qas matched →
    ∀ k, r.found_field = some k → k ∉ matched := by
  intro qas
  induction qas with
  | nil => intro matched r hr; simp [performAux] at hr
  | cons qa rest ih =>
    intro matched r hr k hk
    simp only [performAux] at hr
    rcases List.mem_cons.mp hr with h1 | h1
    · rw [h1] at hk
      exact matchEntry_found_not_matched qa idx matched threshold fz hidx k hk
    · rcases hf : (matchEntry qa idx matched threshold fz).found_field
        with _ | k0
      · rw [hf] at h1
        exact ih matched r h1 k hk
      · rw [hf] at h1
        have := ih (k0 :: matched) r h1 k hk
        intro hmem
        exact this (List.mem_cons_of_mem k0 hmem)

theorem performAux_nodup_found (idx : List (String × FormField))
    (threshold : ℚ) (fz : String → String → ℚ)
    (hidx : ∀ p ∈ idx, p.2.canonical_key = p.1) :
    ∀ (qas : List QAField) (matched : List String),
    ((performAux idx threshold fz qas matched).filterMap
      (fun r => r.found_field)).Nodup := by
  intro qas
  induction qas with
  | nil => intro matched; simp [performAux]
  | cons qa rest ih =>
    intro matched
    simp only [performAux, List.filterMap_cons]
    rcases hf : (matchEntry qa idx matched threshold fz).found_field
      with _ | k0
    · exact ih matched
    · rw [List.nodup_cons]
      refine ⟨?_, ih (k0 :: matched)⟩
      intro hmem
      rcases List.mem_filterMap.mp hmem with ⟨r, hr, hrk⟩
      exact performAux_found_not_matched idx threshold fz hidx rest
        (k0 :: matched) r hr k0 hrk (List.mem_cons_self k0 matched)

/-- Claim C5: within a single `match()` call no discovered field's canonical
key is claimed by more than one verdict — the claimed-key set threads
through all tiers of all later entries, so the claimed keys of the verdict
list are pairwise distinct. -/
theorem C5_one_to_one_matching (qaFields : List QAField)
    (fields : List FormField) (threshold : ℚ) (fz : String → String → ℚ) :
    ((performMatching qaFields fields threshold fz).filterMap
      (fun r => r.found_field)).Nodup := by
  unfold performMatching
  exact performAux_nodup_found (buildIndex fields) threshold fz
    (buildIndex_val_key fields) qaFields []

/-- Claim C2: the tiers are tried in order for each entry.  Tier 1: an
unclaimed indexed field with the entry's canonical key yields PRESENTE,
similarity 1, tier "exact".  Tier 2 (exact failed): a synonym hitting an
unclaimed field yields PRESENTE, fixed similarity 0.95, tier "synonym".
Tier 3 (both failed): the unclaimed field whose combined score
0.6·Jaccard + 0.4·edit-similarity strictly exceeds both the threshold and
every other unclaimed field's score is claimed with tier "similarity" and
status PRESENTE iff the score is ≥ 0.9, POTENCIAL_EQUIVALENTE otherwise.
If every unclaimed score is ≤ the threshold and tiers 1–2 failed, the
verdict is FALTANTE with tier "none" and no claimed field. -/
theorem C2_tiered_matching (qa : QAField) (fields : List FormField)
    (matched : List String) (threshold : ℚ) (fz : String → String → ℚ) :
    (∀ f, lookupAssoc (buildIndex fields) qa.canonical_key = some f →
      f.canonical_key ∉ matched →
      matchEntry qa (buildIndex fields) matched threshold fz =
        ⟨qa.original_text, "PRESENTE", some f.canonical_key, 1, "exact"⟩) ∧
    ((∀ f, lookupAssoc (buildIndex fields) qa.canonical_key = some f →
        f.canonical_key ∈ matched) →
      (∃ s ∈ qa.synonyms, ∃ f, lookupAssoc (buildIndex fields) s = some f ∧
        f.canonical_key ∉ matched) →
      ∃ s ∈ qa.synonyms, ∃ f, lookupAssoc (buildIndex fields) s = some f ∧
        f.canonical_key ∉ matched ∧
        matchEntry qa (buildIndex fields) matched threshold fz =
          ⟨qa.original_text, "PRESENTE", some f.canonical_key,
            95/100, "synonym"⟩) ∧
    ((∀ f, lookupAssoc (buildIndex fields) qa.canonical_key = some f →
        f.canonical_key ∈ matched) →
      (∀ s ∈ qa.synonyms, ∀ f, lookupAssoc (buildIndex fields) s = some f →
        f.canonical_key ∈ matched) →
      ∀ k0 f0, (k0, f0) ∈ buildIndex fields → k0 ∉ matched →
        threshold < combinedScore qa k0 f0 fz →
        (∀ k f, (k, f) ∈ buildIndex fields → k ∉ matched → k ≠ k0 →
          combinedScore qa k f fz < combinedScore qa k0 f0 fz) →
        matchEntry qa (buildIndex fields) matched threshold fz =
          ⟨qa.original_text,
            if 9/10 ≤ combinedScore qa k0 f0 fz then "PRESENTE"
            else "POTENCIAL_EQUIVALENTE",
            some f0.canonical_key, combinedScore qa k0 f0 fz, "similarity"⟩) ∧
    ((∀ f, lookupAssoc (buildIndex fields) qa.canonical_key = some f →
        f.canonical_key ∈ matched) →
      (∀ s ∈ qa.synonyms, ∀ f, lookupAssoc (buildIndex fields) s = some f →
        f.canonical_key ∈ matched) →
      (∀ k f, (k, f) ∈ buildIndex fields → k ∉ matched →
        combinedScore qa k f fz ≤ threshold) →
      matchEntry qa (buildIndex fields) matched threshold fz =
        ⟨qa.original_text, "FALTANTE", none, 0, "none"⟩) := by
  refine ⟨?_, ?_, ?_, ?_⟩
  · intro f hl hm
    exact matchEntry_of_exact qa _ matched threshold fz f hl hm
  · intro hex hsyn
    have hexn : tryExactMatch qa (buildIndex fields) matched = none :=
      (tryExactMatch_none_iff qa _ matched).mpr hex
    rcases hr : trySynonymMatch qa (buildIndex fields) matched with _ | r
    · exfalso
      rcases hsyn with ⟨s, hs, f, hf, hm⟩
      exact hm (((trySynonymMatchAux_none_iff qa _ matched qa.synonyms).mp hr)
        s hs f hf)
    · rcases trySynonymMatchAux_some qa _ matched qa.synonyms r hr
        with ⟨s, hs, f, hf, hm, hrr⟩
      refine ⟨s, hs, f, hf, hm, ?_⟩
      rw [matchEntry_of_synonym qa _ matched threshold fz r hexn hr, hrr]
  · intro hex hsyn k0 f0 hmem hm0 hgt hmax
    have hexn : tryExactMatch qa (buildIndex fields) matched = none :=
      (tryExactMatch_none_iff qa _ matched).mpr hex
    have hsyn' : trySynonymMatch qa (buildIndex fields) matched = none :=
      (trySynonymMatchAux_none_iff qa _ matched qa.synonyms).mpr hsyn
    exact matchEntry_of_similarity qa _ matched threshold fz _ hexn hsyn'
      (trySimilarityMatch_max qa _ matched threshold fz k0 f0
        (buildIndex_nodup_keys fields) hmem hm0 hgt hmax)
  · intro hex hsyn hbelow
    have hexn : tryExactMatch qa (buildIndex fields) matched = none :=
      (tryExactMatch_none_iff qa _ matched).mpr hex
    have hsyn' : trySynonymMatch qa (buildIndex fields) matched = none :=
      (trySynonymMatchAux_none_iff qa _ matched qa.synonyms).mpr hsyn
    exact matchEntry_of_no_tier qa _ matched threshold fz hexn hsyn'
      (trySimilarityMatch_none qa _ matched threshold fz hbelow)

/-- A discovered field used by concrete matcher scenarios. -/
def fieldRut : FormField :=
  ⟨"rol unico tributario", some "RUT", none, none, none, true, none, none, none⟩

/-- Witness for `C2_tiered_matching`: the checklist entry "RUT" (canonical
key "rol unico tributario") exact-matches the discovered RUT field. -/
theorem C2_tiered_matching_witness :
    matchEntry (mkQAField "RUT") (buildIndex [fieldRut]) []
        qa_match_threshold_default fzZero =
      ⟨"RUT", "PRESENTE", some "rol unico tributario", 1, "exact"⟩ := by
  exact (C2_tiered_matching (mkQAField "RUT") [fieldRut] []
    qa_match_threshold_default fzZero).1 fieldRut (by decide) (by decide)

/-! ### Extras lemmas -/

theorem mem_truthyFoundKeys (results : List MatchResult) (k : String) :
    k ∈ truthyFoundKeys results ↔
      (∃ r ∈ results, r.found_field = some k) ∧ k ≠ "" := by
  unfold truthyFoundKeys
  rw [List.mem_filterMap]
  constructor
  · rintro ⟨r, hr, hk⟩
    rcases hf : r.found_field with _ | s
    · rw [hf] at hk
      simp at hk
    · rw [hf] at hk
      by_cases hs : s = ""
      · simp [hs] at hk
      · simp only [hs, if_false, ite_false] at hk
        injection hk with hk'
        exact ⟨⟨r, hr, by rw [hf, hk']⟩, by rw [← hk']; exact hs⟩
  · rintro ⟨⟨r, hr, hf⟩, hne⟩
    refine ⟨r, hr, ?_⟩
    rw [hf]
    simp [hne]

theorem mem_identifyExtras (fields : List FormField)
    (results : List MatchResult) (k : String) :
    k ∈ identifyExtras fields results ↔
      (∃ f ∈ fields, f.canonical_key = k) ∧
        k ∉ truthyFoundKeys results := by
  unfold identifyExtras
  rw [List.mem_filterMap]
  constructor
  · rintro ⟨f, hf, hk⟩
    by_cases hm : f.canonical_key ∈ truthyFoundKeys results
    · simp [hm] at hk
    · simp only [hm, if_false, ite_false] at hk
      injection hk with hk'
      exact ⟨⟨f, hf, hk'⟩, hk' ▸ hm⟩
  · rintro ⟨⟨f, hf, hk⟩, hm⟩
    refine ⟨f, hf, ?_⟩
    rw [hk]
    simp [hm]

theorem trySynonymMatchAux_empty_idx (qa : QAField) (matched : List String) :
    ∀ syns : List String, trySynonymMatchAux qa [] matched syns = none := by
  intro syns
  induction syns with
  | nil => rfl
  | cons s rest ih => simpa [trySynonymMatchAux, lookupAssoc, List.find?] using ih

theorem matchEntry_empty_idx (qa : QAField) (matched : List String)
    (threshold : ℚ) (fz : String → String → ℚ) :
    matchEntry qa [] matched threshold fz =
      ⟨qa.original_text, "FALTANTE", none, 0, "none"⟩ := by
  apply matchEntry_of_no_tier
  · rfl
  · exact trySynonymMatchAux_empty_idx qa matched qa.synonyms
  · rfl

theorem performAux_empty_idx (threshold : ℚ) (fz : String → String → ℚ) :
    ∀ (qas : List QAField) (matched : List String),
    performAux [] threshold fz qas matched =
      qas.map (fun qa => ⟨qa.original_text, "FALTANTE", none, 0, "none"⟩) := by
  intro qas
  induction qas with
  | nil => intro matched; rfl
  | cons qa rest ih =>
    intro matched
    simp only [performAux, matchEntry_empty_idx, List.map_cons]
    exact congrArg _ (ih matched)

/-- Claim C6 (amended), counterexample to the claim as stated: for the
checklist entry "de" (all stopwords, canonical key "") and a discovered
field whose canonical key is the empty string, the field is claimed by the
exact tier AND still reported in extras, because `_identify_extra_fields`
filters claimed keys by Python truthiness (`if result.found_field`), which
drops the empty string. -/
theorem C6_completeness_counterexample :
    (∃ r ∈ performMatching [mkQAField "de"]
        [⟨"", none, none, none, none, false, none, none, none⟩]
        qa_match_threshold_default fzZero,
      r.found_field = some "") ∧
    "" ∈ identifyExtras
      [⟨"", none, none, none, none, false, none, none, none⟩]
      (performMatching [mkQAField "de"]
        [⟨"", none, none, none, none, false, none, none, none⟩]
        qa_match_threshold_default fzZero) := by
  constructor
  · refine ⟨matchEntry (mkQAField "de")
      (buildIndex [⟨"", none, none, none, none, false, none, none, none⟩]) []
      qa_match_threshold_default fzZero, List.mem_cons_self _ _, ?_⟩
    rw [matchEntry_of_exact _ _ _ _ _
      ⟨"", none, none, none, none, false, none, none, none⟩ (by decide)
      (by decide)]
  · rw [mem_identifyExtras]
    refine ⟨⟨_, List.mem_cons_self _ _, rfl⟩, ?_⟩
    rw [mem_truthyFoundKeys]
    rintro ⟨_, hne⟩
    exact hne rfl

theorem identifyExtras_no_results (fields : List FormField) :
    identifyExtras fields [] = fields.map (fun f => f.canonical_key) := by
  unfold identifyExtras truthyFoundKeys
  induction fields with
  | nil => rfl
  | cons f rest ih => simpa [List.filterMap_cons] using ih

/-- Claim C6 (amended): each checklist entry produces exactly one verdict;
each discovered field whose canonical key is NON-empty ends up in exactly
one of the two output sets (claimed by some verdict, or reported in extras);
a field claimed under the empty canonical key is additionally reported in
extras (the extras pass tests the claimed key's truthiness, see the
counterexample); an empty checklist yields no verdicts and every discovered
field in extras; an empty discovered set yields an all-FALTANTE verdict list
and empty extras; the matcher model is total, so neither case raises. -/
theorem C6_completeness_spec (qaFields : List QAField)
    (fields : List FormField) (threshold : ℚ) (fz : String → String → ℚ) :
    ((performMatching qaFields fields threshold fz).length =
      qaFields.length) ∧
    (∀ f ∈ fields, f.canonical_key ≠ "" →
      ((∃ r ∈ performMatching qaFields fields threshold fz,
          r.found_field = some f.canonical_key) ↔
        f.canonical_key ∉
          identifyExtras fields
            (performMatching qaFields fields threshold fz))) ∧
    (performMatching [] fields threshold fz = []) ∧
    (identifyExtras fields (performMatching [] fields threshold fz) =
      fields.map (fun f => f.canonical_key)) ∧
    (performMatching qaFields [] threshold fz =
      qaFields.map (fun qa =>
        ⟨qa.original_text, "FALTANTE", none, 0, "none"⟩)) ∧
    (identifyExtras [] (performMatching qaFields [] threshold fz) = []) := by
  refine ⟨?_, ?_, rfl, ?_, ?_, rfl⟩
  · exact performAux_length (buildIndex fields) threshold fz qaFields []
  · intro f hf hne
    constructor
    · rintro ⟨r, hr, hk⟩ hextras
      rw [mem_identifyExtras] at hextras
      exact hextras.2 ((mem_truthyFoundKeys _ _).mpr ⟨⟨r, hr, hk⟩, hne⟩)
    · intro hnot
      by_cases hm : f.canonical_key ∈
          truthyFoundKeys (performMatching qaFields fields threshold fz)
      · exact ((mem_truthyFoundKeys _ _).mp hm).1
      · exact absurd ((mem_identifyExtras _ _ _).mpr ⟨⟨f, hf, rfl⟩, hm⟩) hnot
  · exact identifyExtras_no_results fields
  · exact performAux_empty_idx threshold fz qaFields []

/-- Witness for `C6_completeness_spec`: the claimed RUT field is not in
extras. -/
theorem C6_completeness_spec_witness :
    fieldRut.canonical_key ∉
      identifyExtras [fieldRut]
        (performMatching [mkQAField "RUT"] [fieldRut]
          qa_match_threshold_default fzZero) := by
  exact ((C6_completeness_spec [mkQAField "RUT"] [fieldRut]
    qa_match_threshold_default fzZero).2.1 fieldRut
    (List.mem_cons_self _ _) (by decide)).mp (by decide)

/-! ### Duplicate canonical keys (Claim C10) -/

theorem lookupAssoc_eq_of_mem {beta : Type} {h : List (String × beta)}
    {k : String} {f : beta} (hnd : (h.map Prod.fst).Nodup)
    (hmem : (k, f) ∈ h) : lookupAssoc h k = some f := by
  induction h with
  | nil => simp at hmem
  | cons p rest ih =>
    rw [List.map_cons, List.nodup_cons] at hnd
    rcases List.mem_cons.mp hmem with h1 | h1
    · rw [← h1]
      exact lookupAssoc_cons_self (k, f) rest rfl
    · have hp : ¬ p.1 = k := by
        intro he
        refine hnd.1 ?_
        rw [he]
        exact List.mem_map.mpr ⟨(k, f), h1, rfl⟩
      rw [lookupAssoc_cons_ne p rest hp]
      exact ih hnd.2 h1

theorem count_identifyExtras (results : List MatchResult) (k : String)
    (hk : k ∉ truthyFoundKeys results) :
    ∀ fields : List FormField,
    (identifyExtras fields results).count k =
      (fields.filter (fun f => f.canonical_key = k)).length := by
  intro fields
  induction fields with
  | nil => rfl
  | cons f rest ih =>
    simp only [identifyExtras, List.filterMap_cons, List.filter_cons] at ih ⊢
    by_cases hm : f.canonical_key ∈ truthyFoundKeys results
    · have hfk : ¬ f.canonical_key = k := by
        intro he
        exact hk (he ▸ hm)
      simp only [hm, if_true, ite_true, hfk, decide_eq_true_eq,
        decide_eq_false hfk, if_false, ite_false, Bool.false_eq_true]
      exact ih
    · simp only [hm, if_false, ite_false]
      by_cases hfk : f.canonical_key = k
      · subst hfk
        simp [List.count_cons, ih]
      · have hkf : ¬ k = f.canonical_key := fun he => hfk he.symm
        simp [List.count_cons, hfk, hkf, ih]

/-- Claim C10: `match()` indexes discovered fields by canonical key with
last-wins dict semantics, so for a duplicated canonical key only the last
field in input order is in the index that all three tiers consult; the
extras pass instead iterates the original field list and appends one entry
per field, so an unclaimed canonical key shared by j fields appears j times
in the extras list. -/
theorem C10_duplicate_keys (fields : List FormField)
    (results : List MatchResult) (k : String) :
    (lookupAssoc (buildIndex fields) k =
      fields.reverse.find? (fun f => f.canonical_key = k)) ∧
    (∀ f, (k, f) ∈ buildIndex fields →
      fields.reverse.find? (fun f' => f'.canonical_key = k) = some f) ∧
    (k ∉ truthyFoundKeys results →
      (identifyExtras fields results).count k =
        (fields.filter (fun f => f.canonical_key = k)).length) := by
  refine ⟨lookupAssoc_buildIndex fields k, ?_, ?_⟩
  · intro f hmem
    rw [← lookupAssoc_buildIndex]
    exact lookupAssoc_eq_of_mem (buildIndex_nodup_keys fields) hmem
  · intro hk
    exact count_identifyExtras results k hk fields

/-- A second discovered field sharing `fieldRut`'s canonical key, for the
duplicate-key witness. -/
def fieldRutDup : FormField :=
  ⟨"rol unico tributario", some "RUT Empresa", none, none, none, false,
    none, none, none⟩

/-- Witness for `C10_duplicate_keys`: with two fields sharing one canonical
key, the index holds only the last one, and both appear in extras when the
key is unclaimed. -/
theorem C10_duplicate_keys_witness :
    lookupAssoc (buildIndex [fieldRut, fieldRutDup]) "rol unico tributario" =
      some fieldRutDup ∧
    (identifyExtras [fieldRut, fieldRutDup] []).count
      "rol unico tributario" = 2 := by
  constructor
  · rw [(C10_duplicate_keys [fieldRut, fieldRutDup] []
      "rol unico tributario").1]
    decide
  · rw [(C10_duplicate_keys [fieldRut, fieldRutDup] []
      "rol unico tributario").2.2 (by decide)]
    decide
